import Mathlib

set_option maxRecDepth 100000

/-!
Verification development for the HD2 mod installer sync engine.

The definitions below are a shallow embedding of the Python sources:
`main.py`, `src/git_functions.py`, `src/local_version.py`,
`src/max_mod.py`, `src/files.py`.  The local filesystem is modelled as a
partial map from path strings to byte contents; machine words of the
hash computation are `Nat` reduced modulo 2 ^ 32; fallible operations
return `Option` or `Except`.
-/

set_option autoImplicit false

namespace HD2

/-- Local filesystem: a partial map from file path to byte content.
Directories are not modelled; `none` means the file does not exist. -/
def FS : Type := String → Option (List Nat)

/-! ### SHA-1 (model of gitpygit2 blob hashing)

`calculate_sha1` in `src/git_functions.py` delegates to `pygit2.hash`,
which computes the Git blob digest: SHA-1 over
`"blob " ++ decimal length ++ "\x00" ++ content`.  We implement SHA-1
concretely so the embedding can be evaluated on real inputs. -/

/-- Reduce modulo 2 ^ 32 (32-bit machine word). -/
def w32 (n : Nat) : Nat := n % 4294967296

/-- Rotate a 32-bit word left by `b` bits (for `n < 2 ^ 32`, `0 < b < 32`). -/
def rotl32 (b n : Nat) : Nat :=
  (n % 2 ^ (32 - b)) * 2 ^ b + n / 2 ^ (32 - b)

/-- SHA-1 round function, depending on the round index. -/
def sha1F (i b c d : Nat) : Nat :=
  if i < 20 then (b &&& c) ||| ((4294967295 - b) &&& d)
  else if i < 40 then (b ^^^ c) ^^^ d
  else if i < 60 then ((b &&& c) ||| (b &&& d)) ||| (c &&& d)
  else (b ^^^ c) ^^^ d

/-- SHA-1 round constants. -/
def sha1K (i : Nat) : Nat :=
  if i < 20 then 1518500249
  else if i < 40 then 1859775393
  else if i < 60 then 2400959708
  else 3395469782

/-- Group a byte list into big-endian 32-bit words. -/
def bytesToWords : List Nat → List Nat
  | b0 :: b1 :: b2 :: b3 :: rest =>
    (((b0 * 256 + b1) * 256 + b2) * 256 + b3) :: bytesToWords rest
  | _ => []

/-- Extend the 16 chunk words by `n` further schedule words. -/
def extendWords : List Nat → Nat → List Nat
  | w, 0 => w
  | w, n + 1 =>
    let l := w.length
    extendWords
      (w ++ [rotl32 1 (((w.getD (l - 3) 0 ^^^ w.getD (l - 8) 0)
        ^^^ w.getD (l - 14) 0) ^^^ w.getD (l - 16) 0)]) n

/-- The 80 compression rounds of one SHA-1 chunk. -/
def sha1Rounds (w : List Nat) (st : Nat × Nat × Nat × Nat × Nat) :
    Nat × Nat × Nat × Nat × Nat :=
  (List.range 80).foldl
    (fun st i =>
      match st with
      | (a, b, c, d, e) =>
        (w32 (rotl32 5 a + sha1F i b c d + e + sha1K i + w.getD i 0),
         a, rotl32 30 b, c, d))
    st

/-- Process one 64-byte chunk, updating the running hash state. -/
def processChunk (h : Nat × Nat × Nat × Nat × Nat) (chunk : List Nat) :
    Nat × Nat × Nat × Nat × Nat :=
  match h with
  | (h0, h1, h2, h3, h4) =>
    match sha1Rounds (extendWords (bytesToWords chunk) 64) (h0, h1, h2, h3, h4) with
    | (a, b, c, d, e) =>
      (w32 (h0 + a), w32 (h1 + b), w32 (h2 + c), w32 (h3 + d), w32 (h4 + e))

/-- Big-endian byte expansion of `n` into `k` bytes. -/
def beBytes (k n : Nat) : List Nat :=
  match k with
  | 0 => []
  | k + 1 => beBytes k (n / 256) ++ [n % 256]

/-- SHA-1 message padding: append `0x80`, zeros, and the 64-bit length. -/
def sha1Pad (msg : List Nat) : List Nat :=
  let ml := msg.length
  msg ++ [128] ++ List.replicate ((120 - (ml + 1) % 64) % 64) 0
    ++ beBytes 8 (8 * ml)

/-- Split a byte list into 64-byte chunks (`fuel` bounds the recursion;
each step consumes 64 bytes, so `l.length + 1` is always enough). -/
def chunksAux : Nat → List Nat → List (List Nat)
  | 0, _ => []
  | fuel + 1, l => if l = [] then [] else l.take 64 :: chunksAux fuel (l.drop 64)

/-- Split a byte list into 64-byte chunks. -/
def chunks64 (l : List Nat) : List (List Nat) := chunksAux (l.length + 1) l

/-- The five 32-bit words of the SHA-1 digest of a byte string. -/
def sha1Words (msg : List Nat) : List Nat :=
  match (chunks64 (sha1Pad msg)).foldl processChunk
      (1732584193, 4023233417, 2562383102, 271733878, 3285377520) with
  | (h0, h1, h2, h3, h4) => [h0, h1, h2, h3, h4]

/-- Lower-case hex digit for a value below 16. -/
def hexChar (n : Nat) : String :=
  (["0", "1", "2", "3", "4", "5", "6", "7", "8", "9",
    "a", "b", "c", "d", "e", "f"]).getD n "0"

/-- Eight-hex-digit rendering of a 32-bit word. -/
def hexWord (n : Nat) : String :=
  String.join ((List.range 8).map (fun i => hexChar (n / 16 ^ (7 - i) % 16)))

/-- Forty-character hexadecimal SHA-1 digest of a byte string. -/
def sha1Hex (msg : List Nat) : String :=
  String.join ((sha1Words msg).map hexWord)

/-- Decimal ASCII digits of `n`, with a structural fuel bound (`n + 1`
steps always suffice since the argument shrinks by a factor of 10). -/
def decBytesAux : Nat → Nat → List Nat
  | 0, _ => []
  | fuel + 1, n =>
    if n < 10 then [48 + n] else decBytesAux fuel (n / 10) ++ [48 + n % 10]

/-- Decimal ASCII digits of `n` (bytes of `str(n)`). -/
def decBytes (n : Nat) : List Nat := decBytesAux (n + 1) n

/-- The Git blob preimage: `"blob " ++ str(len) ++ "\x00" ++ content`. -/
def blobMessage (content : List Nat) : List Nat :=
  [98, 108, 111, 98, 32] ++ decBytes content.length ++ [0] ++ content

/-- Model of `pygit2.hash`: hex SHA-1 of the Git blob preimage. -/
def pygit2_hash (data : List Nat) : String := sha1Hex (blobMessage data)

/-- Embedding of `calculate_sha1` (`src/git_functions.py`): `none` when
the path does not name a file, otherwise the Git blob digest of its
bytes.  (I/O errors while reading are outside the filesystem model.) -/
def calculate_sha1 (fs : FS) (file_path : String) : Option String :=
  match fs file_path with
  | none => none
  | some data => some (pygit2_hash data)

/-! ### Diff engine (`src/git_functions.py`, `main.py`) -/

/-- `os.path.join` for a relative second component. -/
def ospJoin (a b : String) : String := a ++ "/" ++ b

/-- One entry of a recursive Git tree listing (`tree_contents['tree']`):
fields `path`, `type` (`"blob"` or `"tree"`), `sha`, `size`. -/
structure TreeItem where
  path : String
  type : String
  sha : String
  size : Nat
deriving DecidableEq, Repr

/-- One entry of a flat directory listing (GitHub contents API):
fields `name`, `type` (`"file"` or `"dir"`), `url`, `download_url`,
`sha`, `size`. -/
structure FolderItem where
  name : String
  type : String
  url : String
  download_url : String
  sha : String
  size : Nat
deriving DecidableEq, Repr

/-- A download worklist entry, as appended by the diff engine. -/
structure DownloadTask where
  download_url : String
  local_path : String
  size : Nat
deriving DecidableEq, Repr

/-- A deletion worklist entry (uninstall mode). -/
structure DeleteTask where
  local_path : String
  size : Nat
deriving DecidableEq, Repr

/-- Python `s.replace(\x27#\x27, \x27%23\x27)` on the character list. -/
def replaceHashChars : List Char → List Char
  | [] => []
  | c :: rest =>
    if c = '#' then '%' :: '2' :: '3' :: replaceHashChars rest
    else c :: replaceHashChars rest

/-- Percent-encoding of `#` used when building download locators. -/
def replaceHash (s : String) : String := ⟨replaceHashChars s.data⟩

/-- Embedding of `check_and_prepare_file` (`src/git_functions.py`):
append a download task when the local file is missing or its blob hash
differs from the remote `sha`. -/
def check_and_prepare_file (fs : FS) (item : TreeItem) (folder local_path : String)
    (files_to_download : List DownloadTask) (raw_base_url : String) :
    List DownloadTask :=
  let local_file_path := ospJoin local_path item.path
  if fs local_file_path = none ∨ some item.sha ≠ calculate_sha1 fs local_file_path then
    files_to_download ++
      [⟨raw_base_url ++ "/" ++ folder ++ "/" ++ replaceHash item.path,
        local_file_path, item.size⟩]
  else files_to_download

/-- Embedding of `check_and_prepare_file_to_delete`
(`src/git_functions.py`): append a deletion task when the local file
exists and its blob hash equals the remote `sha`. -/
def check_and_prepare_file_to_delete (fs : FS) (item : TreeItem) (local_path : String)
    (files_to_delete : List DeleteTask) : List DeleteTask :=
  let local_file_path := ospJoin local_path item.path
  if fs local_file_path ≠ none ∧ some item.sha = calculate_sha1 fs local_file_path then
    files_to_delete ++ [⟨local_file_path, item.size⟩]
  else files_to_delete

/-- Embedding of the `file` branch of `process_item` (`main.py`): the
flat-listing diff appends a task when the remote `sha` differs from the
local blob hash (`calculate_sha1` is `None` for a missing file). -/
def process_item_file (fs : FS) (item : FolderItem) (local_path : String)
    (files_to_download : List DownloadTask) : List DownloadTask :=
  let local_file_path := ospJoin local_path item.name
  if some item.sha ≠ calculate_sha1 fs local_file_path then
    files_to_download ++ [⟨item.download_url, local_file_path, item.size⟩]
  else files_to_download

/-- Raw-content base URL hard-coded in `main.py`. -/
def RAW_BASE_URL : String := "https://raw.githubusercontent.com/ehylla93/had2-cmp/main"

/-- Embedding of the `blob` branch of `fetch_tree_contents` (`main.py`,
Maps folder): the locator is built from the raw item path, with no
percent-encoding. -/
def main_tree_blob (fs : FS) (item : TreeItem) (local_path : String)
    (files_to_download : List DownloadTask) : List DownloadTask :=
  let local_file_path := ospJoin local_path item.path
  if fs local_file_path = none ∨ some item.sha ≠ calculate_sha1 fs local_file_path then
    files_to_download ++
      [⟨RAW_BASE_URL ++ "/Maps/" ++ item.path, local_file_path, item.size⟩]
  else files_to_download

/-- Install-mode walk of one fetched tree listing: the loop body of
`fetch_tree_contents` (`src/git_functions.py`) over the blob entries
(directory entries only create local folders, which the filesystem
model does not track).  The thread pool appends in completion order;
the model uses listing order, which fixes one interleaving. -/
def fetch_tree_diff (fs : FS) (items : List TreeItem) (folder local_path raw_base_url : String)
    (files : List DownloadTask) : List DownloadTask :=
  items.foldl
    (fun acc item =>
      if item.type = "blob" then
        check_and_prepare_file fs item folder local_path acc raw_base_url
      else acc)
    files

/-- Uninstall-mode walk of one fetched tree listing (`is_delete=True`
branch of `fetch_tree_contents`, `src/git_functions.py`). -/
def fetch_tree_diff_delete (fs : FS) (items : List TreeItem) (local_path : String)
    (files : List DeleteTask) : List DeleteTask :=
  items.foldl
    (fun acc item =>
      if item.type = "blob" then check_and_prepare_file_to_delete fs item local_path acc
      else acc)
    files

/-! ### Remote fetch with retry (`src/git_functions.py`, `main.py`) -/

/-- Abstract HTTP response for one attempt: the classes distinguished by
`fetch_with_retry` (403 with rate-limit text, 404, 401, success JSON,
any other status that `raise_for_status` rejects). -/
inductive Resp (α : Type) where
  | rateLimited (retry_after : Nat)
  | notFound
  | unauthorized
  | okJson (body : α)
  | failStatus (code : Nat)

/-- `true` exactly on a rate-limited response. -/
def Resp.isRL {α : Type} : Resp α → Bool
  | .rateLimited _ => true
  | _ => false

/-- Result of a listing fetch: the empty list (`[]`) or a JSON body. -/
inductive ListingResult (α : Type) where
  | empty
  | body (b : α)
deriving DecidableEq, Repr

/-- Fatal fetch outcomes: `ConnectionError` after exhausted retries, or
the `ClientResponseError` raised by `raise_for_status`. -/
inductive FetchErr where
  | connectionError
  | httpError (code : Nat)
deriving DecidableEq, Repr

/-- Embedding of `fetch_with_retry` (`src/git_functions.py`): `resp`
gives the response to the attempt with index `i`; the second argument
counts remaining attempts.  Rate limiting sleeps and retries; 404 and
401 return `[]`; other failing statuses raise; exhausting the attempts
raises `ConnectionError`. -/
def fetch_with_retry_git {α : Type} (resp : Nat → Resp α) :
    Nat → Nat → Except FetchErr (ListingResult α)
  | _, 0 => .error .connectionError
  | i, n + 1 =>
    match resp i with
    | .rateLimited _ => fetch_with_retry_git resp (i + 1) n
    | .notFound => .ok .empty
    | .unauthorized => .ok .empty
    | .okJson b => .ok (.body b)
    | .failStatus c => .error (.httpError c)

/-- Embedding of `fetch_with_retry` (`main.py`): same loop, but a 401
falls into `raise_for_status` (no dedicated branch), and exhausting the
attempts logs and returns `[]` instead of raising. -/
def fetch_with_retry_main {α : Type} (resp : Nat → Resp α) :
    Nat → Nat → Except FetchErr (ListingResult α)
  | _, 0 => .ok .empty
  | i, n + 1 =>
    match resp i with
    | .rateLimited _ => fetch_with_retry_main resp (i + 1) n
    | .notFound => .ok .empty
    | .unauthorized => .error (.httpError 401)
    | .okJson b => .ok (.body b)
    | .failStatus c => .error (.httpError c)

/-! ### Paginated folder listing (`fetch_folder_contents`, `main.py`) -/

/-- Pagination loop of `fetch_folder_contents`: `server p` is the list
of item names on page `p`; `seen` models `previous_items`.  The loop
breaks on an empty page, on a page whose name set is contained in
`seen`, and after a short page; otherwise it advances to the next page.
`fuel` bounds the iterations (the Python loop is unbounded); `none`
means the fuel ran out before the loop broke.  Item processing does not
affect the loop control and is abstracted away. -/
def folderLoop (server : Nat → List String) (limit : Nat) :
    Nat → List String → Nat → Option (List String)
  | _, _, 0 => none
  | page, seen, fuel + 1 =>
    let items := server page
    if items = [] then some seen
    else if ∀ x ∈ items, x ∈ seen then some seen
    else
      let seen2 := seen ++ items.filter (fun x => decide (x ∉ seen))
      if items.length < limit then some seen2
      else folderLoop server limit (page + 1) seen2 fuel

/-! ### Version marker (`src/local_version.py`) -/

/-- The persisted JSON object: an ordered key to nullable-version map. -/
abbrev VersionRecord : Type := List (String × Option String)

/-- First-match lookup of a key (`k in settings` plus `settings[k]`). -/
def lookupKey (r : VersionRecord) (k : String) : Option (Option String) :=
  match r with
  | [] => none
  | (k0, v0) :: rest => if k0 = k then some v0 else lookupKey rest k

/-- Python dict assignment `data[k] = v`: replace the first binding of
`k`, or append a new binding. -/
def setKey (r : VersionRecord) (k : String) (v : Option String) : VersionRecord :=
  match r with
  | [] => [(k, v)]
  | (k0, v0) :: rest => if k0 = k then (k, v) :: rest else (k0, v0) :: setKey rest k v

/-- `LATEST_VERSION` constant from `src/local_version.py`. -/
def LATEST_VERSION : String := "v0.0.3"

/-- Embedding of `_standard_version`: the record written to a freshly
created marker file. -/
def standard_version : VersionRecord :=
  [("self", some LATEST_VERSION), ("CMP", none), ("Mods by Max", none)]

/-- Embedding of `_check_version_file`: the marker-file state after the
check (`some r` = the file exists holding `r`). -/
def check_version_file (vfs : Option VersionRecord) : Option VersionRecord :=
  match vfs with
  | some r => some r
  | none => some standard_version

/-- Embedding of `get_local_version`: ensure the marker file exists,
then read key `v_type` (a missing key and a null value both read as
`None`).  Returns the marker-file state after the call and the value. -/
def get_local_version (vfs : Option VersionRecord) (v_type : String) :
    Option VersionRecord × Option String :=
  match check_version_file vfs with
  | some settings => (some settings, (lookupKey settings v_type).join)
  | none => (none, none)

/-- Embedding of `save_local_version`: read-modify-write of the marker
file.  Opening a missing file in `r+` mode fails, so a `none` state is
left unchanged. -/
def save_local_version (vfs : Option VersionRecord) (version : Option String)
    (v_type : String) : Option VersionRecord :=
  match vfs with
  | none => none
  | some data => some (setKey data v_type version)

/-! ### Install session (`src/max_mod.py`, `main.py`) -/

/-- Observable events of one install session. -/
inductive Ev where
  | scanned (folder : String)
  | transferred (tasks : List DownloadTask)
  | savedMarker (version : String)
deriving DecidableEq, Repr

/-- Folder-level wrapper of `fetch_tree_contents`
(`src/git_functions.py`, install mode): a fetch error propagates, an
empty listing (`if not tree_contents: return`) leaves the worklist
unchanged, and a tree body is diffed into the worklist. -/
def fetch_tree_contents_install (fs : FS)
    (fetched : Except FetchErr (ListingResult (List TreeItem)))
    (folder local_path : String) (files : List DownloadTask) (raw_base_url : String) :
    Except FetchErr (List DownloadTask) :=
  match fetched with
  | .error e => .error e
  | .ok .empty => .ok files
  | .ok (.body items) => .ok (fetch_tree_diff fs items folder local_path raw_base_url files)

/-- The scanning phase of `install_max_mod`: fold the folder list over
one shared worklist, recording a `scanned` event per completed folder
and aborting on the first fetch error. -/
def scanFolders (fs : FS) (fetch : String → Except FetchErr (ListingResult (List TreeItem)))
    (raw cwd : String) :
    List String → List DownloadTask → List Ev × Except FetchErr (List DownloadTask)
  | [], files => ([], .ok files)
  | f :: rest, files =>
    match fetch_tree_contents_install fs (fetch f) f (ospJoin cwd f) files raw with
    | .error e => ([], .error e)
    | .ok files2 =>
      let r := scanFolders fs fetch raw cwd rest files2
      (.scanned f :: r.1, r.2)

/-- Embedding of one `install_max_mod` session: scan all folders, then
transfer the accumulated worklist (skipped when empty), then save the
version marker.  `download files = some e` models `download_files`
raising; the events record what the session performed, and the second
component is the fatal error, if any, that ended it. -/
def installSession (fs : FS)
    (fetch : String → Except FetchErr (ListingResult (List TreeItem)))
    (download : List DownloadTask → Option FetchErr)
    (raw cwd : String) (folders : List String) (version : String) :
    List Ev × Option FetchErr :=
  match scanFolders fs fetch raw cwd folders [] with
  | (evs, .error e) => (evs, some e)
  | (evs, .ok files) =>
    if files.isEmpty then (evs ++ [.savedMarker version], none)
    else
      match download files with
      | some e => (evs, some e)
      | none => (evs ++ [.transferred files, .savedMarker version], none)

/-! ### Concrete inputs used by witnesses and counterexamples -/

/-- Concrete local filesystem holding one empty file at `root/a.txt`. -/
def delFs : FS := fun p => if p = "root/a.txt" then some [] else none

/-- Concrete one-blob listing whose `sha` is the Git empty-blob digest. -/
def delItems : List TreeItem :=
  [⟨"a.txt", "blob", "e69de29bb2d1d6434b8b29ae775ad8c2e48c5391", 0⟩]

/-- The empty local filesystem. -/
def fsNone : FS := fun _ => none

/-- A remote blob whose relative path contains `#`. -/
def hashItem : TreeItem := ⟨"a#b.txt", "blob", "H1", 5⟩

/-- A server that rate-limits every attempt. -/
def rlResp : Nat → Resp (List TreeItem) := fun _ => .rateLimited 2

/-- A server that repeats the same full page forever. -/
def rep2Server : Nat → List String := fun _ => ["a", "b"]

/-- Fetch stub that always reports an empty listing. -/
def fetchE : String → Except FetchErr (ListingResult (List TreeItem)) := fun _ => .ok .empty

/-- Download stub that always succeeds. -/
def dlNone : List DownloadTask → Option FetchErr := fun _ => none

/-- Filesystem with a single empty file, used to evaluate the hasher on
a concrete input against the well-known Git empty-blob digest. -/
def fsOne : FS := fun p => if p = "f" then some [] else none

/-! ### Claims -/

/-- Appending a nonempty list changes a list. -/
theorem append_singleton_ne {α : Type} (l : List α) (t : α) : l ++ [t] ≠ l := by
  intro h
  simpa using congrArg List.length h

/-- The hasher returns `none` exactly on a missing file. -/
theorem calculate_sha1_eq_none (fs : FS) (p : String) :
    calculate_sha1 fs p = none ↔ fs p = none := by
  unfold calculate_sha1
  cases fs p <;> simp

/-- C1: in install mode, a File entry yields exactly one download task
(with the remote locator, destination `localRoot/relativePath`, and the
declared size) precisely when the local file at the mapped path is
absent or its blob hash differs from the remote `sha`; an entry whose
local hash equals the remote hash leaves the worklist unchanged.
Stated for both diff implementations: `check_and_prepare_file`
(`src/git_functions.py`) and the file branch of `process_item`
(`main.py`). -/
theorem install_diff_membership (fs : FS) (item : TreeItem) (fitem : FolderItem)
    (folder local_path raw_base_url lp2 : String)
    (files files2 : List DownloadTask) :
    (check_and_prepare_file fs item folder local_path files raw_base_url
        = files ++ [⟨raw_base_url ++ "/" ++ folder ++ "/" ++ replaceHash item.path,
            ospJoin local_path item.path, item.size⟩]
      ↔ (fs (ospJoin local_path item.path) = none
          ∨ calculate_sha1 fs (ospJoin local_path item.path) ≠ some item.sha))
    ∧ (check_and_prepare_file fs item folder local_path files raw_base_url = files
      ↔ calculate_sha1 fs (ospJoin local_path item.path) = some item.sha)
    ∧ (process_item_file fs fitem lp2 files2
        = files2 ++ [⟨fitem.download_url, ospJoin lp2 fitem.name, fitem.size⟩]
      ↔ (fs (ospJoin lp2 fitem.name) = none
          ∨ calculate_sha1 fs (ospJoin lp2 fitem.name) ≠ some fitem.sha))
    ∧ (process_item_file fs fitem lp2 files2 = files2
      ↔ calculate_sha1 fs (ospJoin lp2 fitem.name) = some fitem.sha) := by
  have hnone2 : fs (ospJoin lp2 fitem.name) = none →
      calculate_sha1 fs (ospJoin lp2 fitem.name) = none :=
    (calculate_sha1_eq_none fs _).mpr
  refine ⟨?_, ?_, ?_, ?_⟩
  · unfold check_and_prepare_file
    dsimp only
    split_ifs with h
    · simp only [true_iff, iff_true]
      rcases h with h | h
      · exact Or.inl h
      · exact Or.inr (fun hc => h hc.symm)
    · constructor
      · intro heq
        exact absurd heq.symm (append_singleton_ne files _)
      · intro hc
        exfalso
        apply h
        rcases hc with hc | hc
        · exact Or.inl hc
        · exact Or.inr (fun he => hc he.symm)
  · unfold check_and_prepare_file
    dsimp only
    split_ifs with h
    · constructor
      · intro heq
        exact absurd heq (append_singleton_ne files _)
      · intro hc
        exfalso
        rcases h with h | h
        · rw [(calculate_sha1_eq_none fs _).mpr h] at hc
          exact Option.noConfusion hc
        · exact h hc.symm
    · constructor
      · intro _
        push_neg at h
        exact h.2.symm
      · intro _
        rfl
  · unfold process_item_file
    dsimp only
    split_ifs with h
    · simp only [true_iff, iff_true]
      exact Or.inr (fun hc => h hc.symm)
    · constructor
      · intro heq
        exact absurd heq.symm (append_singleton_ne files2 _)
      · intro hc
        exfalso
        apply h
        rcases hc with hc | hc
        · rw [hnone2 hc]
          exact fun he => Option.noConfusion he
        · exact fun he => hc he.symm
  · unfold process_item_file
    dsimp only
    split_ifs with h
    · constructor
      · intro heq
        exact absurd heq (append_singleton_ne files2 _)
      · intro hc
        exact absurd hc.symm h
    · constructor
      · intro _
        push_neg at h
        exact h.symm
      · intro _
        rfl

/-- Unfolding the uninstall fold by one listing entry. -/
theorem fetch_tree_diff_delete_cons (fs : FS) (item : TreeItem) (rest : List TreeItem)
    (lp : String) (files : List DeleteTask) :
    fetch_tree_diff_delete fs (item :: rest) lp files
      = fetch_tree_diff_delete fs rest lp
          (if item.type = "blob" then check_and_prepare_file_to_delete fs item lp files
           else files) := rfl

/-- Every task of the uninstall fold is inherited from the accumulator
or certified by a blob entry whose remote hash equals the local one. -/
theorem mem_fetch_tree_diff_delete (fs : FS) (lp : String) :
    ∀ (items : List TreeItem) (files : List DeleteTask) (t : DeleteTask),
      t ∈ fetch_tree_diff_delete fs items lp files →
      t ∈ files ∨ ∃ item ∈ items, item.type = "blob"
        ∧ t.local_path = ospJoin lp item.path
        ∧ calculate_sha1 fs t.local_path = some item.sha := by
  intro items
  induction items with
  | nil =>
    intro files t ht
    exact Or.inl ht
  | cons item rest ih =>
    intro files t ht
    rw [fetch_tree_diff_delete_cons] at ht
    rcases ih _ t ht with hmem | ⟨it, hit, hb, hp, hc⟩
    · by_cases hblob : item.type = "blob"
      · rw [if_pos hblob] at hmem
        unfold check_and_prepare_file_to_delete at hmem
        dsimp only at hmem
        split_ifs at hmem with hcond
        · rcases List.mem_append.mp hmem with hold | hnew
          · exact Or.inl hold
          · rcases List.mem_singleton.mp hnew with rfl
            refine Or.inr ⟨item, List.mem_cons_self item rest, hblob, rfl, ?_⟩
            exact hcond.2.symm
        · exact Or.inl hmem
      · rw [if_neg hblob] at hmem
        exact Or.inl hmem
    · exact Or.inr ⟨it, List.mem_cons_of_mem item hit, hb, hp, hc⟩

/-- C2: in uninstall mode, a File entry yields a deletion task exactly
when a local file exists at the mapped path with a blob hash equal to
the remote `sha` (`check_and_prepare_file_to_delete`,
`src/git_functions.py`); consequently every task of the deletion
worklist built from a listing corresponds to a blob entry whose remote
hash matches the local content. -/
theorem uninstall_diff_membership (fs : FS) (item : TreeItem) (local_path : String)
    (files : List DeleteTask) (items : List TreeItem) :
    (check_and_prepare_file_to_delete fs item local_path files
        = files ++ [⟨ospJoin local_path item.path, item.size⟩]
      ↔ (fs (ospJoin local_path item.path) ≠ none
          ∧ calculate_sha1 fs (ospJoin local_path item.path) = some item.sha))
    ∧ (check_and_prepare_file_to_delete fs item local_path files = files
      ↔ ¬ (fs (ospJoin local_path item.path) ≠ none
          ∧ calculate_sha1 fs (ospJoin local_path item.path) = some item.sha))
    ∧ (∀ t ∈ fetch_tree_diff_delete fs items local_path [],
        ∃ it ∈ items, it.type = "blob"
          ∧ t.local_path = ospJoin local_path it.path
          ∧ calculate_sha1 fs t.local_path = some it.sha) := by
  refine ⟨?_, ?_, ?_⟩
  · unfold check_and_prepare_file_to_delete
    dsimp only
    split_ifs with h
    · simp only [true_iff, iff_true]
      exact ⟨h.1, h.2.symm⟩
    · constructor
      · intro heq
        exact absurd heq.symm (append_singleton_ne files _)
      · intro hc
        exact absurd ⟨hc.1, hc.2.symm⟩ h
  · unfold check_and_prepare_file_to_delete
    dsimp only
    split_ifs with h
    · constructor
      · intro heq
        exact absurd heq (append_singleton_ne files _)
      · intro hc
        exact absurd ⟨h.1, h.2.symm⟩ hc
    · constructor
      · intro _
        exact fun hc => h ⟨hc.1, hc.2.symm⟩
      · intro _
        rfl
  · intro t ht
    rcases mem_fetch_tree_diff_delete fs local_path items [] t ht with hmem | hgood
    · exact absurd hmem (List.not_mem_nil t)
    · exact hgood

theorem uninstall_diff_membership_witness :
    ∃ it ∈ delItems, it.type = "blob"
      ∧ (DeleteTask.mk "root/a.txt" 0).local_path = ospJoin "root" it.path
      ∧ calculate_sha1 delFs (DeleteTask.mk "root/a.txt" 0).local_path = some it.sha :=
  (uninstall_diff_membership delFs
      ⟨"a.txt", "blob", "e69de29bb2d1d6434b8b29ae775ad8c2e48c5391", 0⟩
      "root" [] delItems).2.2
    ⟨"root/a.txt", 0⟩ (by decide)

/-- The encoding never leaves a `#` in its output. -/
theorem hash_notin_replaceHashChars : ∀ l : List Char, '#' ∉ replaceHashChars l := by
  intro l
  induction l with
  | nil => simp [replaceHashChars]
  | cons c rest ih =>
    unfold replaceHashChars
    split_ifs with hc
    · intro hmem
      rcases List.mem_cons.mp hmem with h1 | hmem
      · exact absurd h1 (by decide)
      rcases List.mem_cons.mp hmem with h2 | hmem
      · exact absurd h2 (by decide)
      rcases List.mem_cons.mp hmem with h3 | hmem
      · exact absurd h3 (by decide)
      exact ih hmem
    · intro hmem
      rcases List.mem_cons.mp hmem with h1 | hmem
      · exact hc h1.symm
      · exact ih hmem

/-- C5 counterexample: the Maps-tree diff of `main.py`
(`fetch_tree_contents`) builds the download locator from the raw item
path, so the task for `a#b.txt` carries an unencoded `#`. -/
theorem maps_tree_locator_unencoded :
    main_tree_blob fsNone hashItem "root" []
      = [⟨"https://raw.githubusercontent.com/ehylla93/had2-cmp/main/Maps/a#b.txt",
          "root/a#b.txt", 5⟩]
    ∧ '#' ∈ "https://raw.githubusercontent.com/ehylla93/had2-cmp/main/Maps/a#b.txt".data := by
  constructor
  · decide
  · decide

/-- C5 (amended): for an entry the install diff appends,
`check_and_prepare_file` (`src/git_functions.py`) percent-encodes `#`
in the download locator (the encoded path contains no `#`) and leaves
the destination path as the unaltered join of the local root with the
relative path; the Maps-tree diff of `main.py` instead keeps the raw
relative path in its locator. -/
theorem install_locator_hash_encoding (fs : FS) (item : TreeItem)
    (folder local_path raw_base_url lp2 : String) (files files2 : List DownloadTask)
    (hcond : fs (ospJoin local_path item.path) = none
      ∨ some item.sha ≠ calculate_sha1 fs (ospJoin local_path item.path))
    (hcond2 : fs (ospJoin lp2 item.path) = none
      ∨ some item.sha ≠ calculate_sha1 fs (ospJoin lp2 item.path)) :
    check_and_prepare_file fs item folder local_path files raw_base_url
      = files ++ [⟨raw_base_url ++ "/" ++ folder ++ "/" ++ replaceHash item.path,
          ospJoin local_path item.path, item.size⟩]
    ∧ '#' ∉ (replaceHash item.path).data
    ∧ main_tree_blob fs item lp2 files2
      = files2 ++ [⟨RAW_BASE_URL ++ "/Maps/" ++ item.path, ospJoin lp2 item.path, item.size⟩] := by
  refine ⟨?_, hash_notin_replaceHashChars item.path.data, ?_⟩
  · unfold check_and_prepare_file
    dsimp only
    rw [if_pos hcond]
  · unfold main_tree_blob
    dsimp only
    rw [if_pos hcond2]

theorem install_locator_hash_encoding_witness :
    check_and_prepare_file fsNone hashItem "Maps" "root" [] "https://raw.example"
      = [] ++ [⟨"https://raw.example" ++ "/" ++ "Maps" ++ "/" ++ replaceHash "a#b.txt",
          ospJoin "root" "a#b.txt", 5⟩]
    ∧ '#' ∉ (replaceHash "a#b.txt").data
    ∧ main_tree_blob fsNone hashItem "root2" []
      = [] ++ [⟨RAW_BASE_URL ++ "/Maps/" ++ "a#b.txt", ospJoin "root2" "a#b.txt", 5⟩] :=
  install_locator_hash_encoding fsNone hashItem "Maps" "root" "https://raw.example" "root2"
    [] [] (Or.inl rfl) (Or.inl rfl)

/-- C6 counterexample: the record written to a freshly created marker
file does not leave every key unset: `self` is bound to `v0.0.3`. -/
theorem created_marker_self_not_null :
    check_version_file none = some standard_version
    ∧ ¬ (∀ kv ∈ standard_version, kv.2 = none) := by
  constructor
  · rfl
  · decide

/-- C6 (amended): when the marker file is missing at first read,
`get_local_version` creates it with `_standard_version` before reading
from it; in the created record the package keys `CMP` and
`Mods by Max` are unset, while `self` is initialized to the program
version constant `v0.0.3`. -/
theorem marker_created_on_first_read (v_type : String) :
    (get_local_version none v_type).1 = some standard_version
    ∧ (get_local_version none v_type).2 = (lookupKey standard_version v_type).join
    ∧ lookupKey standard_version "CMP" = some none
    ∧ lookupKey standard_version "Mods by Max" = some none
    ∧ lookupKey standard_version "self" = some (some LATEST_VERSION) := by
  exact ⟨rfl, rfl, by decide, by decide, by decide⟩

/-- Updating one key never changes what any other key reads as. -/
theorem lookupKey_setKey_ne (data : VersionRecord) (k q : String) (v : Option String)
    (hne : q ≠ k) : lookupKey (setKey data k v) q = lookupKey data q := by
  induction data with
  | nil =>
    have hkq : ¬ (k = q) := fun h => hne h.symm
    simp [setKey, lookupKey, hkq]
  | cons kv rest ih =>
    obtain ⟨k0, v0⟩ := kv
    unfold setKey
    split_ifs with h0
    · have hkq : ¬ (k = q) := fun h => hne h.symm
      have hk0q : ¬ (k0 = q) := fun h => hne (h0.symm.trans h).symm
      simp [lookupKey, hkq, hk0q]
    · unfold lookupKey
      split_ifs with hq
      · rfl
      · exact ih

/-- C10: `save_local_version` (`src/local_version.py`) rewrites the
record with only the written key changed: reading any other key after
the write returns the same value as before. -/
theorem save_local_version_frame (data : VersionRecord) (version : Option String)
    (v_type q : String) (h : q ≠ v_type) :
    save_local_version (some data) version v_type = some (setKey data v_type version)
    ∧ lookupKey (setKey data v_type version) q = lookupKey data q :=
  ⟨rfl, lookupKey_setKey_ne data v_type q version h⟩

theorem save_local_version_frame_witness :
    save_local_version (some standard_version) (some "1.2") "CMP"
      = some (setKey standard_version "CMP" (some "1.2"))
    ∧ lookupKey (setKey standard_version "CMP" (some "1.2")) "self"
      = lookupKey standard_version "self" :=
  save_local_version_frame standard_version (some "1.2") "CMP" "self" (by decide)

/-- C3 counterexample: the `main.py` variant of `fetch_with_retry`
exhausts its three attempts against a permanently rate-limiting server
and returns the empty listing instead of raising a fatal error. -/
theorem fetch_retry_main_returns_empty :
    fetch_with_retry_main rlResp 0 3 = .ok .empty := rfl

/-- C3 (amended): when every attempt is rate-limited, the
`src/git_functions.py` fetch raises `ConnectionError` after the attempt
ceiling, while the `main.py` fetch logs and returns the empty listing. -/
theorem fetch_retry_exhaustion {α : Type} (resp : Nat → Resp α) (i n : Nat)
    (h : ∀ j, j < n → (resp (i + j)).isRL = true) :
    fetch_with_retry_git resp i n = .error .connectionError
    ∧ fetch_with_retry_main resp i n = .ok .empty := by
  induction n generalizing i with
  | zero => exact ⟨rfl, rfl⟩
  | succ n ih =>
    have h0 : (resp i).isRL = true := by
      have hh := h 0 (Nat.succ_pos n)
      simpa using hh
    cases hr : resp i with
    | rateLimited t =>
      have hrec := ih (i + 1) (fun j hj => by
        have hh := h (j + 1) (Nat.succ_lt_succ hj)
        rwa [show i + (j + 1) = i + 1 + j from by omega] at hh)
      constructor
      · simp only [fetch_with_retry_git, hr]
        exact hrec.1
      · simp only [fetch_with_retry_main, hr]
        exact hrec.2
    | notFound => rw [hr] at h0; simp [Resp.isRL] at h0
    | unauthorized => rw [hr] at h0; simp [Resp.isRL] at h0
    | okJson b => rw [hr] at h0; simp [Resp.isRL] at h0
    | failStatus c => rw [hr] at h0; simp [Resp.isRL] at h0

theorem fetch_retry_exhaustion_witness :
    fetch_with_retry_git rlResp 0 3 = .error .connectionError
    ∧ fetch_with_retry_main rlResp 0 3 = .ok .empty :=
  fetch_retry_exhaustion rlResp 0 3 (by decide)

/-- The pagination loop breaks within `j + 1` iterations when page
`start + j` is empty, short, or contained in what was seen by then. -/
theorem folderLoop_terminates_aux (server : Nat → List String) (limit : Nat) :
    ∀ (j start : Nat) (seen : List String),
      (server (start + j) = []
        ∨ (server (start + j)).length < limit
        ∨ (∀ x ∈ server (start + j), x ∈ seen ∨ ∃ k, k < j ∧ x ∈ server (start + k))) →
      (folderLoop server limit start seen (j + 1)).isSome = true := by
  intro j
  induction j with
  | zero =>
    intro start seen h
    simp only [Nat.add_zero] at h
    rw [folderLoop]
    dsimp only
    split_ifs with h1 h2 h3
    · rfl
    · rfl
    · rfl
    · exfalso
      rcases h with h | h | h
      · exact h1 h
      · exact h3 h
      · refine h2 ?_
        intro x hx
        rcases h x hx with hx2 | ⟨k, hk, _⟩
        · exact hx2
        · exact absurd hk (Nat.not_lt_zero k)
  | succ j ih =>
    intro start seen h
    rw [folderLoop]
    dsimp only
    split_ifs with h1 h2 h3
    · rfl
    · rfl
    · rfl
    · apply ih (start + 1)
      rw [show start + 1 + j = start + (j + 1) from by omega]
      rcases h with h | h | h
      · exact Or.inl h
      · exact Or.inr (Or.inl h)
      · refine Or.inr (Or.inr ?_)
        intro x hx
        rcases h x hx with hx2 | ⟨k, hk, hxk⟩
        · exact Or.inl (List.mem_append_left _ hx2)
        · cases k with
          | zero =>
            rw [Nat.add_zero] at hxk
            by_cases hxs : x ∈ seen
            · exact Or.inl (List.mem_append_left _ hxs)
            · refine Or.inl (List.mem_append_right _ ?_)
              rw [List.mem_filter]
              exact ⟨hxk, decide_eq_true hxs⟩
          | succ k2 =>
            refine Or.inr ⟨k2, Nat.lt_of_succ_lt_succ hk, ?_⟩
            rwa [show start + 1 + k2 = start + (k2 + 1) from by omega]

/-- C4: the pagination loop of `fetch_folder_contents` (`main.py`)
terminates whenever some page is eventually empty, short, or has a name
set contained in the names already seen by then; it stops immediately
on an empty page, on a page contained in the seen set, and after a
short page. -/
theorem folder_pagination_terminates (server : Nat → List String) (limit : Nat)
    (start : Nat) (seen : List String) (j p f : Nat) (s : List String)
    (h : server (start + j) = []
      ∨ (server (start + j)).length < limit
      ∨ (∀ x ∈ server (start + j), x ∈ seen ∨ ∃ k, k < j ∧ x ∈ server (start + k))) :
    (folderLoop server limit start seen (j + 1)).isSome = true
    ∧ (server p = [] → folderLoop server limit p s (f + 1) = some s)
    ∧ ((∀ x ∈ server p, x ∈ s) → folderLoop server limit p s (f + 1) = some s)
    ∧ ((server p).length < limit → (folderLoop server limit p s (f + 1)).isSome = true) := by
  refine ⟨folderLoop_terminates_aux server limit j start seen h, ?_, ?_, ?_⟩
  · intro he
    rw [folderLoop]
    dsimp only
    rw [if_pos he]
  · intro hsub
    rw [folderLoop]
    dsimp only
    split_ifs <;> rfl
  · intro hshort
    rw [folderLoop]
    dsimp only
    split_ifs <;> rfl

theorem folder_pagination_terminates_witness :
    (folderLoop rep2Server 2 0 [] 2).isSome = true :=
  (folder_pagination_terminates rep2Server 2 0 [] 1 0 0 []
    (Or.inr (Or.inr (fun _ hx => Or.inr ⟨0, Nat.zero_lt_one, hx⟩)))).1

/-- The scanning phase only ever records `scanned` events. -/
theorem scanFolders_events (fs : FS)
    (fetch : String → Except FetchErr (ListingResult (List TreeItem)))
    (raw cwd : String) :
    ∀ (folders : List String) (files : List DownloadTask) (e : Ev),
      e ∈ (scanFolders fs fetch raw cwd folders files).1 → ∃ f, e = Ev.scanned f := by
  intro folders
  induction folders with
  | nil =>
    intro files e he
    simp [scanFolders] at he
  | cons f rest ih =>
    intro files e he
    rw [scanFolders] at he
    cases hfe : fetch_tree_contents_install fs (fetch f) f (ospJoin cwd f) files raw with
    | error err =>
      rw [hfe] at he
      simp at he
    | ok files2 =>
      rw [hfe] at he
      dsimp only at he
      rcases List.mem_cons.mp he with rfl | he2
      · exact ⟨f, rfl⟩
      · exact ih files2 e he2

/-- C7: in an install session (`install_max_mod`, `src/max_mod.py`), a
marker save implies the session had no fatal error; on success the save
is the last event; an empty accumulated worklist skips the transfer and
still saves the marker; a nonempty worklist is transferred in full
before the save, which only happens when the transfer succeeded. -/
theorem install_marker_discipline (fs : FS)
    (fetch : String → Except FetchErr (ListingResult (List TreeItem)))
    (download : List DownloadTask → Option FetchErr)
    (raw cwd : String) (folders : List String) (version : String) :
    (∀ v, Ev.savedMarker v ∈ (installSession fs fetch download raw cwd folders version).1
      → (installSession fs fetch download raw cwd folders version).2 = none)
    ∧ ((installSession fs fetch download raw cwd folders version).2 = none
      → (installSession fs fetch download raw cwd folders version).1.getLast?
          = some (Ev.savedMarker version))
    ∧ (∀ sevs, scanFolders fs fetch raw cwd folders [] = (sevs, .ok [])
      → installSession fs fetch download raw cwd folders version
          = (sevs ++ [Ev.savedMarker version], none)
        ∧ ∀ ts, Ev.transferred ts ∉ (installSession fs fetch download raw cwd folders version).1)
    ∧ (∀ sevs files, scanFolders fs fetch raw cwd folders [] = (sevs, .ok files)
      → files ≠ []
      → (installSession fs fetch download raw cwd folders version).2 = none
      → (installSession fs fetch download raw cwd folders version).1
          = sevs ++ [Ev.transferred files, Ev.savedMarker version]
        ∧ download files = none) := by
  have hscanEv : ∀ e ∈ (scanFolders fs fetch raw cwd folders []).1, ∃ f, e = Ev.scanned f :=
    fun e he => scanFolders_events fs fetch raw cwd folders [] e he
  rcases hscan : scanFolders fs fetch raw cwd folders [] with ⟨sevs0, r0⟩
  rw [hscan] at hscanEv
  have hs : installSession fs fetch download raw cwd folders version
      = match (sevs0, r0) with
        | (evs, .error e) => (evs, some e)
        | (evs, .ok files) =>
          if files.isEmpty then (evs ++ [.savedMarker version], none)
          else
            match download files with
            | some e => (evs, some e)
            | none => (evs ++ [.transferred files, .savedMarker version], none) := by
    unfold installSession
    rw [hscan]
  cases r0 with
  | error e =>
    rw [hs]
    dsimp only
    refine ⟨?_, ?_, ?_, ?_⟩
    · intro v hv
      rcases hscanEv _ hv with ⟨f, hf⟩
      exact absurd hf (by simp)
    · intro hv
      exact absurd hv (by simp)
    · intro sevs heq
      simp at heq
    · intro sevs files heq
      simp at heq
  | ok files0 =>
    by_cases hemp : files0.isEmpty
    · have hfil : files0 = [] := List.isEmpty_iff.mp hemp
      rw [hs]
      dsimp only
      rw [if_pos hemp]
      refine ⟨?_, ?_, ?_, ?_⟩
      · intro v _
        rfl
      · intro _
        exact List.getLast?_concat _
      · intro sevs heq
        injection heq with h1 h2
        subst h1
        refine ⟨rfl, ?_⟩
        intro ts hts
        rcases List.mem_append.mp hts with hin | hin
        · rcases hscanEv _ hin with ⟨f, hf⟩
          exact Ev.noConfusion hf
        · exact Ev.noConfusion (List.mem_singleton.mp hin)
      · intro sevs files heq hne hnone
        injection heq with h1 h2
        injection h2 with h3
        exact absurd (h3.symm.trans hfil) hne
    · cases hdl : download files0 with
      | some e =>
        rw [hs]
        dsimp only
        rw [if_neg hemp, hdl]
        refine ⟨?_, ?_, ?_, ?_⟩
        · intro v hv
          rcases hscanEv _ hv with ⟨f, hf⟩
          exact absurd hf (by simp)
        · intro hv
          exact absurd hv (by simp)
        · intro sevs heq
          injection heq with h1 h2
          injection h2 with h3
          rw [h3] at hemp
          exact absurd rfl hemp
        · intro sevs files heq hne hnone
          exact Option.noConfusion hnone
      | none =>
        rw [hs]
        dsimp only
        rw [if_neg hemp, hdl]
        refine ⟨?_, ?_, ?_, ?_⟩
        · intro v _
          rfl
        · intro _
          rw [show sevs0 ++ [Ev.transferred files0, Ev.savedMarker version]
              = (sevs0 ++ [Ev.transferred files0]) ++ [Ev.savedMarker version] from by
            simp]
          exact List.getLast?_concat _
        · intro sevs heq
          injection heq with h1 h2
          injection h2 with h3
          rw [h3] at hemp
          exact absurd rfl hemp
        · intro sevs files heq hne hnone
          injection heq with h1 h2
          injection h2 with h3
          subst h1
          subst h3
          exact ⟨rfl, hdl⟩

theorem install_marker_discipline_witness :
    (installSession fsNone fetchE dlNone "r" "c" ["Maps"] "1.0").1.getLast?
      = some (Ev.savedMarker "1.0") :=
  (install_marker_discipline fsNone fetchE dlNone "r" "c" ["Maps"] "1.0").2.1 rfl

/-- C8: a not-found response makes `fetch_with_retry`
(`src/git_functions.py`) return the empty listing with no error; an
empty listing leaves the worklist untouched in `fetch_tree_contents`;
and a session (`install_max_mod`) whose first folder fetches empty
behaves exactly as the session over the remaining folders, with only an
extra `scanned` event. -/
theorem fetch_404_skips_folder {α : Type} (resp : Nat → Resp α) (i n : Nat) (fs : FS)
    (fetch : String → Except FetchErr (ListingResult (List TreeItem)))
    (download : List DownloadTask → Option FetchErr)
    (raw cwd f : String) (rest : List String) (version : String)
    (folder lp raw2 : String) (files : List DownloadTask) :
    (resp i = Resp.notFound → fetch_with_retry_git resp i (n + 1) = .ok .empty)
    ∧ (fetch_tree_contents_install fs (.ok .empty) folder lp files raw2 = .ok files)
    ∧ (fetch f = .ok .empty →
        installSession fs fetch download raw cwd (f :: rest) version
          = (Ev.scanned f :: (installSession fs fetch download raw cwd rest version).1,
             (installSession fs fetch download raw cwd rest version).2)) := by
  refine ⟨?_, rfl, ?_⟩
  · intro h
    simp only [fetch_with_retry_git, h]
  · intro hf
    have hscan : scanFolders fs fetch raw cwd (f :: rest) []
        = (Ev.scanned f :: (scanFolders fs fetch raw cwd rest []).1,
           (scanFolders fs fetch raw cwd rest []).2) := by
      rw [scanFolders, hf]
      rfl
    unfold installSession
    rw [hscan]
    rcases hrest : scanFolders fs fetch raw cwd rest [] with ⟨evs, r⟩
    cases r with
    | error e => rfl
    | ok files2 =>
      dsimp only
      by_cases hemp : files2.isEmpty
      · simp [hemp]
      · cases hdl2 : download files2 with
        | some e => simp [hemp, hdl2]
        | none => simp [hemp, hdl2]

theorem fetch_404_skips_folder_witness :
    installSession fsNone fetchE dlNone "r" "c" ("Maps" :: ["Models"]) "1.0"
      = (Ev.scanned "Maps" :: (installSession fsNone fetchE dlNone "r" "c" ["Models"] "1.0").1,
         (installSession fsNone fetchE dlNone "r" "c" ["Models"] "1.0").2) :=
  (fetch_404_skips_folder rlResp 0 2 fsNone fetchE dlNone "r" "c" "Maps" ["Models"] "1.0"
    "fold" "lp" "raw2" []).2.2 rfl

/-- C9: the content hasher (`calculate_sha1`, `src/git_functions.py`)
is a deterministic function of the file bytes (the same content yields
the same digest), returns the not-found value `none` for a missing
path, and for an existing file computes the SHA-1 digest of the Git
blob preimage `"blob " ++ str(len) ++ "\x00" ++ content`. -/
theorem calculate_sha1_spec (fs1 fs2 : FS) (p : String) :
    (fs1 p = fs2 p → calculate_sha1 fs1 p = calculate_sha1 fs2 p)
    ∧ (fs1 p = none → calculate_sha1 fs1 p = none)
    ∧ (∀ data, fs1 p = some data
        → calculate_sha1 fs1 p = some (sha1Hex (blobMessage data))) := by
  refine ⟨?_, ?_, ?_⟩
  · intro h
    unfold calculate_sha1
    rw [h]
  · intro h
    unfold calculate_sha1
    rw [h]
  · intro data h
    unfold calculate_sha1
    rw [h]
    rfl

theorem calculate_sha1_spec_witness :
    calculate_sha1 fsOne "f" = some "e69de29bb2d1d6434b8b29ae775ad8c2e48c5391"
    ∧ calculate_sha1 fsOne "g" = none :=
  ⟨((calculate_sha1_spec fsOne fsOne "f").2.2 [] rfl).trans
      (congrArg some (by decide)),
   (calculate_sha1_spec fsOne fsOne "g").2.1 rfl⟩

end HD2
